import Mathlib

/-!
Shallow embedding of the eirtests-runner orchestration pipeline
(src/runner.ts, src/secrets/env.ts, src/types.ts).

Strings are modelled as `List Char` (written `Str`); the process
environment, the secrets bundle and the JavaScript objects built by
spreading are modelled as association lists of key/value pairs, where
`mapSet` mirrors both JavaScript `Map.set` and object property
assignment (replace the value of an existing key in place, otherwise
append), and `mapGet` mirrors `Map.get` / property lookup (first
binding of the key).  `Node.js` `path.join` is modelled as
slash-concatenation, which agrees with it on the already-normalised
relative segments this program joins.  Filesystem and network effects
are modelled by explicit oracles: a per-path write-success predicate,
`Except` values for the fallible fetch / mkdir / JSON-parse / POST
steps, and a boolean flag for the existence of the temp workspace
directory.
-/

abbrev Str := List Char

/-- Lookup in an association list: the value of the first binding of
the key, as JavaScript `Map.get` / object property read. -/
def mapGet (m : List (Str × Str)) (k : Str) : Option Str :=
  (m.find? (fun kv => kv.1 == k)).map (fun kv => kv.2)

/-- JavaScript `Map.set` / object property assignment: replace the
value of an existing key in place, otherwise append the new binding. -/
def mapSet (m : List (Str × Str)) (k v : Str) : List (Str × Str) :=
  if m.any (fun kv => kv.1 == k) then
    m.map (fun kv => if kv.1 == k then (kv.1, v) else kv)
  else
    m ++ [(k, v)]

/-- JavaScript object spread `{...a, ...b}`: assign every binding of
`b`, in order, on top of `a` (later keys override earlier ones). -/
def objSpread (a b : List (Str × Str)) : List (Str × Str) :=
  b.foldl (fun acc kv => mapSet acc kv.1 kv.2) a

/-- Method `EnvSecretsProvider.getAllSecrets` (src/secrets/env.ts): keep the
environment entries whose key starts with `TEST_` and whose value is
truthy (a non-empty string). -/
def getAllSecrets (env : List (Str × Str)) : List (Str × Str) :=
  env.filter (fun kv => "TEST_".toList.isPrefixOf kv.1 && !kv.2.isEmpty)

/-- Method `EnvSecretsProvider.getSecretsForPlaywright` (src/secrets/env.ts):
the `TEST_`-prefixed secrets, plus `BASE_URL` copied from the process
environment when it is set to a truthy (non-empty) value. -/
def getSecretsForPlaywright (env : List (Str × Str)) : List (Str × Str) :=
  match mapGet env "BASE_URL".toList with
  | some v =>
    if v.isEmpty then getAllSecrets env
    else mapSet (getAllSecrets env) "BASE_URL".toList v
  | none => getAllSecrets env

/-- The child environment built in `TestRunner.executeTests`
(src/runner.ts): `{...process.env, ...secrets, NODE_PATH: nodePath}`. -/
def buildExecEnv (nodePath : Str) (procEnv secrets : List (Str × Str)) :
    List (Str × Str) :=
  mapSet (objSpread procEnv secrets) "NODE_PATH".toList nodePath

/-- One conditional `String.replace` with a `^`-anchored literal
pattern: drop the pattern when it is a prefix, otherwise leave the
string unchanged. -/
def stripPrefixIf (pat s : Str) : Str :=
  if pat.isPrefixOf s then s.drop pat.length else s

/-- One conditional `String.replace` with a `$`-anchored literal
pattern (JavaScript `$` without `/m` matches only at the very end):
drop the pattern when it is a suffix, otherwise leave the string
unchanged. -/
def stripSuffixIf (pat s : Str) : Str :=
  if pat.isSuffixOf s then s.take (s.length - pat.length) else s

/-- The markdown-fence cleanup in `TestRunner.writeTestFiles`
(src/runner.ts): when the code starts with three backticks, apply
`.replace(/^```typescript\n/, '').replace(/^```\n/, '').replace(/\n```$/, '')`
in sequence; otherwise write the code unchanged. -/
def cleanCode (s : Str) : Str :=
  if "```".toList.isPrefixOf s then
    stripSuffixIf "\n```".toList
      (stripPrefixIf "```\n".toList
        (stripPrefixIf "```typescript\n".toList s))
  else s

/-- Test definition fetched from the remote API (`ExportedTest` in
src/types.ts, restricted to the fields the pipeline reads). The
nullable column `playwright_code` is an `Option`. -/
structure ExportedTest where
  id : Str
  title : Str
  playwright_code : Option Str
  file_path : Str
deriving DecidableEq, Repr

/-- Fetch payload (`ExportedTests` in src/types.ts, restricted to the
fields the pipeline reads). -/
structure ExportedTests where
  site_id : Str
  organization_id : Str
  tests : List ExportedTest
deriving DecidableEq, Repr

/-- Node `path.join`, on the already-normalised segments this program
joins: the left path, a slash, the right path. -/
def pathJoin (a b : Str) : Str := a ++ '/' :: b

/-- Accumulated outcome of `TestRunner.writeTestFiles`: the `written`
counter, the `testFileToCardIdMap` path-identity map, and the files as
written on disk (path, cleaned content); a later write to the same
path overwrites the earlier file, hence `mapSet` for `files` too. -/
structure WriteOutcome where
  written : Nat
  map : List (Str × Str)
  files : List (Str × Str)
deriving DecidableEq, Repr

/-- Loop body of `TestRunner.writeTestFiles` (src/runner.ts): skip
definitions without code; otherwise join the temp directory with the
relative path, clean the code, write the file (`writeFileSync` throws
when the oracle `writeOk` refuses the path — there is no per-file
catch, so the whole batch aborts), record the path-identity mapping
and bump the counter. -/
def writeTestFilesGo (tempDir : Str) (writeOk : Str → Bool) :
    List ExportedTest → WriteOutcome → Except Str WriteOutcome
  | [], st => .ok st
  | t :: rest, st =>
    match t.playwright_code with
    | none => writeTestFilesGo tempDir writeOk rest st
    | some rawCode =>
      let fullPath := pathJoin tempDir t.file_path
      let code := cleanCode rawCode
      if writeOk fullPath then
        writeTestFilesGo tempDir writeOk rest
          { written := st.written + 1
            map := mapSet st.map fullPath t.id
            files := mapSet st.files fullPath code }
      else
        .error fullPath

/-- Method `TestRunner.writeTestFiles` (src/runner.ts), from the empty
counter, map and workspace. -/
def writeTestFiles (tempDir : Str) (writeOk : Str → Bool)
    (tests : List ExportedTest) : Except Str WriteOutcome :=
  writeTestFilesGo tempDir writeOk tests { written := 0, map := [], files := [] }

/-- JavaScript `\d`. -/
def isDigitChar (c : Char) : Bool := c.isDigit

/-- JavaScript line terminators: the characters that `.` (without the
`s` flag) never matches. -/
def isLineTerminator (c : Char) : Bool :=
  c == '\n' || c == '\r' || c == '\u2028' || c == '\u2029'

/-- Match the anchored part of `/eirtests-\d+\/(.+)$/` at the head of
the string: the literal `eirtests-`, one or more digits (greedy, and
backtracking cannot help since the next character must be `/`), a
slash, then a non-empty remainder reaching the end anchor, which is
the capture.  Since `.` excludes line terminators and `$` (without
`/m`) only matches at the very end, the remainder must contain no line
terminator, or the match at this position fails. -/
def matchAt (s : Str) : Option Str :=
  if "eirtests-".toList.isPrefixOf s then
    match (s.drop "eirtests-".toList.length).takeWhile isDigitChar,
        (s.drop "eirtests-".toList.length).dropWhile isDigitChar with
    | [], _ => none
    | _ :: _, '/' :: rest =>
      if rest.isEmpty then none
      else if rest.any isLineTerminator then none
      else some rest
    | _ :: _, _ => none
  else none

/-- JavaScript `String.match` with `/eirtests-\d+\/(.+)$/`: try the
anchored pattern at each position left to right and return the first
capture. -/
def findMatch : Str → Option Str
  | [] => none
  | c :: cs =>
    match matchAt (c :: cs) with
    | some r => some r
    | none => findMatch cs

/-- Correlation step of `TestRunner.reportResults` (src/runner.ts):
when the reported suite file contains `eirtests-<digits>/`, rebuild
the orchestrator-space path by joining the run's temp directory with
the capture, else use the reported path as is; then look it up in the
path-identity map. -/
def correlateSuite (tempDir : Str) (map : List (Str × Str)) (file : Str) :
    Option Str :=
  match findMatch file with
  | some rel => mapGet map (pathJoin tempDir rel)
  | none => mapGet map file

/-- One attempt in the Playwright JSON report (`PlaywrightJsonResult`
in src/types.ts); `error` models `error?.message`. -/
structure PWResult where
  status : Str
  duration : Int
  error : Option Str
deriving DecidableEq, Repr

/-- One test entry in the Playwright JSON report (`PlaywrightJsonTest`
in src/types.ts). -/
structure PWTest where
  title : Str
  results : List PWResult
deriving DecidableEq, Repr

/-- One spec in the Playwright JSON report (`PlaywrightJsonSpec` in
src/types.ts). -/
structure PWSpec where
  title : Str
  tests : List PWTest
deriving DecidableEq, Repr

/-- One suite in the Playwright JSON report (`PlaywrightJsonSuite` in
src/types.ts). -/
structure PWSuite where
  title : Str
  file : Str
  specs : List PWSpec
deriving DecidableEq, Repr

/-- The Playwright JSON report (`PlaywrightJsonReport` in src/types.ts). -/
structure PWReport where
  suites : List PWSuite
deriving DecidableEq, Repr

/-- One submitted result (`TestResultSubmission` in src/types.ts). -/
structure TestResultSubmission where
  test_card_id : Str
  passed : Bool
  duration_ms : Int
  error_message : Option Str
  status : Str
deriving DecidableEq, Repr

/-- The submission body (`RunnerResultsSubmission` in src/types.ts,
restricted to the fields the pipeline writes). -/
structure RunnerResultsSubmission where
  organization_id : Str
  site_id : Str
  started_at : Str
  finished_at : Str
  status : Str
  results : List TestResultSubmission
deriving DecidableEq, Repr

/-- Per-spec body of the result loop in `TestRunner.reportResults`
(src/runner.ts): read only `spec.tests[0]`; skip when it is missing or
has no attempts; otherwise build one record from the last attempt:
`passed` iff its status is `passed`, the duration, the optional error
message (copied whenever present), and a derived status string. -/
def processSpec (testCardId : Str) (spec : PWSpec) : List TestResultSubmission :=
  match spec.tests.head? with
  | none => []
  | some t =>
    match t.results.getLast? with
    | none => []
    | some latest =>
      let passed := latest.status == "passed".toList
      [{ test_card_id := testCardId
         passed := passed
         duration_ms := latest.duration
         error_message := latest.error
         status := if passed then "passed".toList else "failed".toList }]

/-- Per-suite body of the result loop in `TestRunner.reportResults`
(src/runner.ts): correlate the suite's file path back to a test id;
an unmatched suite contributes nothing; a matched one contributes the
records of its specs. -/
def processSuite (tempDir : Str) (map : List (Str × Str)) (suite : PWSuite) :
    List TestResultSubmission :=
  match correlateSuite tempDir map suite.file with
  | none => []
  | some testCardId => (suite.specs.map (processSpec testCardId)).flatten

/-- Configuration fields checked by `TestRunner.validateConfig`
(src/runner.ts). -/
structure Config where
  apiKey : Str
  siteId : Str
deriving DecidableEq, Repr

/-- Method `TestRunner.validateConfig` (src/runner.ts): throw when the
API key or the site id is falsy (an empty string). -/
def validateConfig (c : Config) : Except Str Unit :=
  if c.apiKey.isEmpty then .error "EIRTESTS_API_KEY is required".toList
  else if c.siteId.isEmpty then .error "EIRTESTS_SITE_ID is required".toList
  else .ok ()

/-- Observable state of the temp workspace: whether the directory
exists on disk, and how many times `TestRunner.cleanup` has been
invoked. -/
structure RunFS where
  dirExists : Bool
  cleanupCalls : Nat
deriving DecidableEq, Repr

/-- Method `TestRunner.cleanup` (src/runner.ts): when the directory
exists, remove it recursively; otherwise do nothing.  Every invocation
is counted. -/
def cleanup (s : RunFS) : RunFS :=
  { dirExists := if s.dirExists then false else s.dirExists
    cleanupCalls := s.cleanupCalls + 1 }

/-- Method `TestRunner.createTempDirectory` (src/runner.ts): when the
directory does not exist, `mkdirSync` it (which may throw, per the
`mkdirOk` oracle). -/
def createTempDirectory (s : RunFS) (mkdirOk : Bool) : Except Str RunFS :=
  if s.dirExists then .ok s
  else if mkdirOk then .ok { s with dirExists := true }
  else .error "mkdir failed".toList

/-- Method `TestRunner.executeTests` (src/runner.ts): build the child
environment from the inherited environment, the secrets and
`NODE_PATH`, run the engine synchronously, return `0` on success; on a
throw return `error.status || 1` (a falsy status becomes `1`).  The
engine outcome is an oracle: `Except.ok` for a zero exit,
`Except.error st` for a throw carrying an optional `status`. -/
def executeTests (nodePath : Str) (procEnv secrets : List (Str × Str))
    (engineOutcome : Except (Option Nat) Unit) : Nat :=
  let _env := buildExecEnv nodePath procEnv secrets
  match engineOutcome with
  | .ok _ => 0
  | .error none => 1
  | .error (some st) => if st == 0 then 1 else st

/-- External-world oracle for one run: the fetch outcome, whether
`mkdirSync` succeeds, which file writes succeed, the engine outcome,
and the report-stage outcomes (results file present, JSON parse,
POST). -/
structure Oracle where
  fetchResult : Except Str ExportedTests
  mkdirOk : Bool
  writeOk : Str → Bool
  engineOutcome : Except (Option Nat) Unit
  reportJsonExists : Bool
  reportParse : Except Str PWReport
  reportPost : Except Str Nat
  startedAt : Str
  finishedAt : Str

/-- Method `TestRunner.reportResults` (src/runner.ts).  Everything
fallible in its body (reading and parsing the results file, the POST
and its status check) sits inside one `try` whose `catch` only logs,
so the method never throws; it returns the submission it posted, or
`none` when it returned early or swallowed a failure. -/
def reportResults (ex : ExportedTests) (tempDir : Str)
    (map : List (Str × Str)) (o : Oracle) (exitCode : Nat) :
    Option RunnerResultsSubmission :=
  if !o.reportJsonExists then none
  else
    match o.reportParse with
    | .error _ => none
    | .ok report =>
      let results := (report.suites.map (processSuite tempDir map)).flatten
      if results.isEmpty then none
      else
        match o.reportPost with
        | .error _ => none
        | .ok _ =>
          some { organization_id := ex.organization_id
                 site_id := ex.site_id
                 started_at := o.startedAt
                 finished_at := o.finishedAt
                 status := if exitCode == 0 then "passed".toList else "failed".toList
                 results := results }

/-- Method `TestRunner.run` (src/runner.ts): validate, fetch, create
the temp directory, materialize, short-circuit when nothing was
written, load secrets, execute, report (never throws), clean up and
return the engine exit code; any throw inside the `try` lands in the
`catch`, which cleans up and returns `1`.  The returned pair is the
process exit code and the final workspace state. -/
def run (cfg : Config) (tempDir nodePath : Str) (procEnv : List (Str × Str))
    (o : Oracle) (fs0 : RunFS) : Nat × RunFS :=
  match validateConfig cfg with
  | .error _ => (1, cleanup fs0)
  | .ok _ =>
    match o.fetchResult with
    | .error _ => (1, cleanup fs0)
    | .ok ex =>
      match createTempDirectory fs0 o.mkdirOk with
      | .error _ => (1, cleanup fs0)
      | .ok fs1 =>
        match writeTestFiles tempDir o.writeOk ex.tests with
        | .error _ => (1, cleanup fs1)
        | .ok w =>
          if w.written == 0 then (0, cleanup fs1)
          else
            let secrets := getSecretsForPlaywright procEnv
            let exitCode := executeTests nodePath procEnv secrets o.engineOutcome
            let _submission := reportResults ex tempDir w.map o exitCode
            (exitCode, cleanup fs1)

theorem cleanup_dirExists (s : RunFS) : (cleanup s).dirExists = false := by
  cases h : s.dirExists <;> simp [cleanup, h]

theorem cleanup_cleanupCalls (s : RunFS) :
    (cleanup s).cleanupCalls = s.cleanupCalls + 1 := rfl

theorem createTempDirectory_calls (s s' : RunFS) (b : Bool)
    (h : createTempDirectory s b = .ok s') :
    s'.cleanupCalls = s.cleanupCalls := by
  unfold createTempDirectory at h
  split at h
  · cases h; rfl
  · split at h
    · cases h; rfl
    · cases h

theorem mapGet_replace_self (m : List (Str × Str)) (k v : Str)
    (hmem : m.any (fun kv => kv.1 == k) = true) :
    mapGet (m.map (fun kv => if kv.1 == k then (kv.1, v) else kv)) k = some v := by
  induction m with
  | nil => simp at hmem
  | cons kv rest ih =>
    by_cases hk : kv.1 == k
    · simp [mapGet, List.find?, hk]
    · simp only [List.any_cons, Bool.or_eq_true] at hmem
      have hrest := hmem.resolve_left (by simpa using hk)
      simp only [List.map_cons, if_neg hk, mapGet, List.find?]
      rw [Bool.of_not_eq_true hk]
      exact ih hrest

theorem mapGet_replace_ne (m : List (Str × Str)) (k v k' : Str)
    (h : k' ≠ k) :
    mapGet (m.map (fun kv => if kv.1 == k then (kv.1, v) else kv)) k' =
      mapGet m k' := by
  induction m with
  | nil => rfl
  | cons kv rest ih =>
    by_cases hk : kv.1 == k
    · have hkeq : kv.1 = k := by simpa using hk
      have hne : (kv.1 == k') = false := by
        rw [beq_eq_false_iff_ne, hkeq]
        exact fun hkk => h hkk.symm
      simp only [List.map_cons, if_pos hk, mapGet, List.find?, hne]
      exact ih
    · simp only [List.map_cons, if_neg hk, mapGet, List.find?]
      cases hk' : kv.1 == k' with
      | true => rfl
      | false => exact ih

theorem mapGet_mapSet_self (m : List (Str × Str)) (k v : Str) :
    mapGet (mapSet m k v) k = some v := by
  unfold mapSet
  split
  · exact mapGet_replace_self m k v (by assumption)
  · rename_i hany
    have hnone : List.find? (fun kv => kv.1 == k) m = none := by
      rw [List.find?_eq_none]
      intro x hx hpx
      exact hany (List.any_eq_true.mpr ⟨x, hx, hpx⟩)
    simp [mapGet, List.find?_append, hnone, List.find?]

theorem mapGet_mapSet_ne (m : List (Str × Str)) (k v k' : Str)
    (h : k' ≠ k) : mapGet (mapSet m k v) k' = mapGet m k' := by
  unfold mapSet
  split
  · exact mapGet_replace_ne m k v k' h
  · have hone : List.find? (fun kv => kv.1 == k') [(k, v)] = none := by
      have hkk : (k == k') = false := by
        rw [beq_eq_false_iff_ne]
        exact fun hkk => h hkk.symm
      simp [List.find?, hkk]
    simp only [mapGet, List.find?_append, hone]
    cases List.find? (fun kv => kv.1 == k') m <;> rfl

theorem mapGet_objSpread_of_not_mem (a b : List (Str × Str)) (k : Str)
    (h : ∀ kv ∈ b, kv.1 ≠ k) : mapGet (objSpread a b) k = mapGet a k := by
  induction b generalizing a with
  | nil => rfl
  | cons kv rest ih =>
    show mapGet (objSpread (mapSet a kv.1 kv.2) rest) k = mapGet a k
    rw [ih (mapSet a kv.1 kv.2) (fun x hx => h x (List.mem_cons_of_mem _ hx))]
    exact mapGet_mapSet_ne a kv.1 kv.2 k
      (fun hk => h kv (List.mem_cons_self _ _) hk.symm)

theorem mapGet_objSpread (a b : List (Str × Str)) (k : Str)
    (hnd : (b.map Prod.fst).Nodup) :
    mapGet (objSpread a b) k =
      match mapGet b k with
      | some v => some v
      | none => mapGet a k := by
  induction b generalizing a with
  | nil => rfl
  | cons kv rest ih =>
    simp only [List.map_cons, List.nodup_cons] at hnd
    show mapGet (objSpread (mapSet a kv.1 kv.2) rest) k = _
    by_cases hk : kv.1 = k
    · subst hk
      have hnm : ∀ x ∈ rest, x.1 ≠ kv.1 := by
        intro x hx hxk
        exact hnd.1 (hxk ▸ List.mem_map_of_mem Prod.fst hx)
      rw [mapGet_objSpread_of_not_mem _ _ _ hnm, mapGet_mapSet_self]
      have hh : mapGet (kv :: rest) kv.1 = some kv.2 := by
        simp [mapGet, List.find?]
      rw [hh]
    · rw [ih _ hnd.2]
      have hh : mapGet (kv :: rest) k = mapGet rest k := by
        simp only [mapGet, List.find?]
        rw [show (kv.1 == k) = false by simpa using hk]
      rw [hh]
      cases mapGet rest k with
      | some v => rfl
      | none => exact mapGet_mapSet_ne a kv.1 kv.2 k (fun h => hk h.symm)

theorem isPrefixOf_append_left (p a b : Str) (h : p.isPrefixOf a = true) :
    p.isPrefixOf (a ++ b) = true := by
  rw [ List.isPrefixOf_iff_prefix] at *
  exact h.trans (a.prefix_append b)

theorem stripPrefixIf_append (p t : Str) : stripPrefixIf p (p ++ t) = t := by
  have h : p.isPrefixOf (p ++ t) = true := by
    rw [ List.isPrefixOf_iff_prefix]
    exact p.prefix_append t
  simp [stripPrefixIf, h, List.drop_left]

theorem stripPrefixIf_of_neg (p s : Str) (h : p.isPrefixOf s = false) :
    stripPrefixIf p s = s := by
  simp [stripPrefixIf, h]

theorem stripSuffixIf_append (p t : Str) : stripSuffixIf p (t ++ p) = t := by
  have h : p.isSuffixOf (t ++ p) = true := by
    rw [ List.isSuffixOf_iff_suffix]
    exact List.suffix_append t p
  simp [stripSuffixIf, h, List.length_append, List.take_left]

theorem tsFence_not_prefixOf_bare (x : Str) :
    "```typescript\n".toList.isPrefixOf ("```\n".toList ++ x) = false := by
  by_contra hc
  have hts : "```typescript\n".toList <+: "```\n".toList ++ x := by
    rw [← List.isPrefixOf_iff_prefix]
    exact Bool.of_not_eq_false hc
  have hbare : "```\n".toList <+: "```\n".toList ++ x :=
    List.prefix_append _ x
  rcases List.prefix_or_prefix_of_prefix hts hbare with h1 | h1
  · exact absurd h1.length_le (by decide)
  · exact absurd h1 (by decide)

theorem takeWhile_digits_append (ds rest : Str)
    (hds : ∀ c ∈ ds, isDigitChar c = true) (hhd : ∀ c ∈ rest.head?, isDigitChar c = false) :
    (ds ++ rest).takeWhile isDigitChar = ds ∧
      (ds ++ rest).dropWhile isDigitChar = rest := by
  induction ds with
  | nil =>
    cases rest with
    | nil => simp [List.takeWhile, List.dropWhile]
    | cons c cs =>
      have := hhd c (by simp)
      simp [List.takeWhile, List.dropWhile, this]
  | cons d ds' ih =>
    have hd := hds d (by simp)
    have hrec := ih (fun c hc => hds c (List.mem_cons_of_mem _ hc))
    simp [List.takeWhile, List.dropWhile, hd, hrec.1, hrec.2]

theorem matchAt_discriminator (ds p : Str) (hds : ds ≠ [])
    (hdig : ∀ c ∈ ds, isDigitChar c = true) (hp : p ≠ [])
    (hterm : p.any isLineTerminator = false) :
    matchAt ("eirtests-".toList ++ ds ++ '/' :: p) = some p := by
  have hpre : "eirtests-".toList.isPrefixOf
      ("eirtests-".toList ++ ds ++ '/' :: p) = true := by
    rw [ List.isPrefixOf_iff_prefix]
    exact List.prefix_append _ _
  have hdrop : ("eirtests-".toList ++ ds ++ '/' :: p).drop
      "eirtests-".toList.length = ds ++ '/' :: p := List.drop_left _ _
  have htw := takeWhile_digits_append ds ('/' :: p) hdig (by
    intro c hc
    simp only [List.head?] at hc
    cases hc
    decide)
  unfold matchAt
  rw [hpre, if_pos rfl, hdrop, htw.1, htw.2]
  cases ds with
  | nil => exact absurd rfl hds
  | cons d ds' =>
    have : p.isEmpty = false := by
      cases p with
      | nil => exact absurd rfl hp
      | cons a as => rfl
    simp [this, hterm]

theorem findMatch_of_matchAt (s r : Str) (h : matchAt s = some r) :
    findMatch s = some r := by
  cases s with
  | nil => simp [matchAt] at h
  | cons c cs => simp [findMatch, h]

theorem findMatch_append_of_no_early (pre rest : Str)
    (h : ∀ i < pre.length, matchAt ((pre ++ rest).drop i) = none) :
    findMatch (pre ++ rest) = findMatch rest := by
  induction pre with
  | nil => rfl
  | cons a pre' ih =>
    have h0 := h 0 (by simp)
    simp only [List.drop_zero] at h0
    rw [List.cons_append] at h0
    show findMatch (a :: (pre' ++ rest)) = findMatch rest
    rw [findMatch, h0]
    exact ih (fun i hi => by
      have := h (i + 1) (by simpa using Nat.succ_lt_succ hi)
      simpa using this)

/-- Number of test definitions that carry source code. -/
def countWithCode (tests : List ExportedTest) : Nat :=
  (tests.filter (fun t => t.playwright_code.isSome)).length

theorem writeTestFilesGo_allOk (tempDir : Str) (tests : List ExportedTest) :
    ∀ st : WriteOutcome, ∃ w,
      writeTestFilesGo tempDir (fun _ => true) tests st = .ok w ∧
        w.written = st.written + countWithCode tests := by
  induction tests with
  | nil => exact fun st => ⟨st, rfl, by simp [countWithCode]⟩
  | cons t rest ih =>
    intro st
    cases hc : t.playwright_code with
    | none =>
      obtain ⟨w, hw, hcount⟩ := ih st
      refine ⟨w, ?_, ?_⟩
      · simpa [writeTestFilesGo, hc] using hw
      · rw [hcount]
        simp [countWithCode, List.filter, hc]
    | some rawCode =>
      obtain ⟨w, hw, hcount⟩ := ih
        { written := st.written + 1
          map := mapSet st.map (pathJoin tempDir t.file_path) t.id
          files := mapSet st.files (pathJoin tempDir t.file_path)
            (cleanCode rawCode) }
      refine ⟨w, ?_, ?_⟩
      · simpa [writeTestFilesGo, hc] using hw
      · rw [hcount]
        simp [countWithCode, List.filter, hc]
        omega

theorem mapSet_keys_nodup (m : List (Str × Str)) (k v : Str)
    (h : (m.map Prod.fst).Nodup) :
    ((mapSet m k v).map Prod.fst).Nodup := by
  unfold mapSet
  split
  · have hkeys : (m.map (fun kv => if kv.1 == k then (kv.1, v) else kv)).map
        Prod.fst = m.map Prod.fst := by
      rw [List.map_map]
      exact List.map_congr_left (fun kv _ => by
        show (if (kv.1 == k) = true then (kv.1, v) else kv).1 = kv.1
        split <;> rfl)
    rw [hkeys]
    exact h
  · rename_i hany
    have hnotmem : k ∉ m.map Prod.fst := by
      intro hmem
      obtain ⟨kv, hkv, hfst⟩ := List.mem_map.mp hmem
      exact hany (List.any_eq_true.mpr ⟨kv, hkv, by simp [hfst]⟩)
    simp only [List.map_append, List.map_cons, List.map_nil]
    rw [List.nodup_append]
    exact ⟨h, List.nodup_singleton k, by simpa using fun hx => hnotmem hx⟩

theorem writeTestFilesGo_map_nodup (tempDir : Str) (writeOk : Str → Bool)
    (tests : List ExportedTest) :
    ∀ st w, (st.map.map Prod.fst).Nodup →
      writeTestFilesGo tempDir writeOk tests st = .ok w →
        (w.map.map Prod.fst).Nodup := by
  induction tests with
  | nil =>
    intro st w hnd hok
    cases hok
    exact hnd
  | cons t rest ih =>
    intro st w hnd hok
    cases hc : t.playwright_code with
    | none =>
      rw [writeTestFilesGo, hc] at hok
      exact ih st w hnd hok
    | some rawCode =>
      rw [writeTestFilesGo, hc] at hok
      by_cases hwk : writeOk (pathJoin tempDir t.file_path) = true
      · simp only [hwk, if_pos] at hok
        exact ih _ w (mapSet_keys_nodup _ _ _ hnd) hok
      · simp only [Bool.not_eq_true] at hwk
        simp [hwk] at hok

/-- C1, counterexample.  The claim says that for any key present in
both the inherited environment and the secrets mapping, the child
environment keeps the inherited value.  In `executeTests` the spread
`{...process.env, ...secrets, NODE_PATH}` puts the secrets later, so
for the shared key `FOO` the child environment carries the secrets
value `b`, not the inherited value `a`. -/
theorem claim1_secrets_override_counterexample :
    mapGet [("FOO".toList, "a".toList)] "FOO".toList = some "a".toList ∧
    mapGet [("FOO".toList, "b".toList)] "FOO".toList = some "b".toList ∧
    mapGet (buildExecEnv "NP".toList [("FOO".toList, "a".toList)]
      [("FOO".toList, "b".toList)]) "FOO".toList = some "b".toList ∧
    "b".toList ≠ "a".toList := by decide

/-- C1, amended.  The child environment passed to the engine is the
inherited environment extended by the secrets with the secrets taking
precedence: for any key other than `NODE_PATH`, the child value is the
secrets value when the key is in the secrets bundle and the inherited
value otherwise. -/
theorem claim1_env_extension_amended (nodePath : Str)
    (procEnv secrets : List (Str × Str)) (k : Str)
    (hnd : (secrets.map Prod.fst).Nodup) (hk : k ≠ "NODE_PATH".toList) :
    mapGet (buildExecEnv nodePath procEnv secrets) k =
      match mapGet secrets k with
      | some v => some v
      | none => mapGet procEnv k := by
  unfold buildExecEnv
  rw [mapGet_mapSet_ne _ _ _ _ hk]
  exact mapGet_objSpread procEnv secrets k hnd

/-- C1, witness for the amended theorem: with inherited `FOO=a, BAR=c`
and secret `FOO=b`, the child environment maps `FOO` to the secrets
value `b`. -/
theorem claim1_env_extension_amended_witness :
    (([("FOO".toList, "b".toList)] : List (Str × Str)).map Prod.fst).Nodup ∧
    "FOO".toList ≠ "NODE_PATH".toList ∧
    mapGet (buildExecEnv "NP".toList
      [("FOO".toList, "a".toList), ("BAR".toList, "c".toList)]
      [("FOO".toList, "b".toList)]) "FOO".toList = some "b".toList :=
  ⟨by decide, by decide,
    claim1_env_extension_amended "NP".toList
      [("FOO".toList, "a".toList), ("BAR".toList, "c".toList)]
      [("FOO".toList, "b".toList)] "FOO".toList (by decide) (by decide)⟩

/-- C9, counterexample.  The claim says the secrets bundle is blind to
every key outside the `TEST_` prefix convention.  The two environments
below agree on all `TEST_`-prefixed entries (there are none), yet
their bundles differ, because `getSecretsForPlaywright` also copies
the unprefixed `BASE_URL`. -/
theorem claim9_base_url_counterexample :
    ([("BASE_URL".toList, "x".toList)] : List (Str × Str)).filter
        (fun kv => "TEST_".toList.isPrefixOf kv.1) =
      ([] : List (Str × Str)).filter
        (fun kv => "TEST_".toList.isPrefixOf kv.1) ∧
    getSecretsForPlaywright [("BASE_URL".toList, "x".toList)] ≠
      getSecretsForPlaywright [] := by decide

/-- C9, amended.  The secrets bundle depends only on the
`TEST_`-prefixed entries of the environment plus the `BASE_URL`
binding: two environments that agree on those yield the same bundle,
so every other key is invisible to the pipeline. -/
theorem claim9_secrets_visibility_amended (env1 env2 : List (Str × Str))
    (hT : env1.filter (fun kv => "TEST_".toList.isPrefixOf kv.1) =
      env2.filter (fun kv => "TEST_".toList.isPrefixOf kv.1))
    (hB : mapGet env1 "BASE_URL".toList = mapGet env2 "BASE_URL".toList) :
    getSecretsForPlaywright env1 = getSecretsForPlaywright env2 := by
  have hsplit : ∀ env : List (Str × Str), getAllSecrets env =
      (env.filter (fun kv => "TEST_".toList.isPrefixOf kv.1)).filter
        (fun kv => !kv.2.isEmpty) := by
    intro env
    unfold getAllSecrets
    rw [List.filter_filter]
    exact List.filter_congr (fun a _ => by rw [Bool.and_comm])
  have hall : getAllSecrets env1 = getAllSecrets env2 := by
    rw [hsplit, hsplit, hT]
  unfold getSecretsForPlaywright
  rw [hall, hB]

/-- C9, witness for the amended theorem: adding an unprefixed,
non-`BASE_URL` entry `Z=z` leaves the bundle unchanged. -/
theorem claim9_secrets_visibility_amended_witness :
    ([("TEST_A".toList, "1".toList), ("Z".toList, "z".toList)] :
        List (Str × Str)).filter (fun kv => "TEST_".toList.isPrefixOf kv.1) =
      ([("TEST_A".toList, "1".toList)] : List (Str × Str)).filter
        (fun kv => "TEST_".toList.isPrefixOf kv.1) ∧
    mapGet [("TEST_A".toList, "1".toList), ("Z".toList, "z".toList)]
        "BASE_URL".toList =
      mapGet [("TEST_A".toList, "1".toList)] "BASE_URL".toList ∧
    getSecretsForPlaywright
        [("TEST_A".toList, "1".toList), ("Z".toList, "z".toList)] =
      getSecretsForPlaywright [("TEST_A".toList, "1".toList)] :=
  ⟨by decide, by decide,
    claim9_secrets_visibility_amended
      [("TEST_A".toList, "1".toList), ("Z".toList, "z".toList)]
      [("TEST_A".toList, "1".toList)] (by decide) (by decide)⟩

/-- C10, confirmed.  Correlation reads only the first test entry of
each spec: the records of a spec are unchanged when all test entries
after the first are dropped, and a spec yields at most one record. -/
theorem claim10_first_test_only (testCardId : Str) (spec : PWSpec) :
    processSpec testCardId spec =
      processSpec testCardId { spec with tests := spec.tests.take 1 } ∧
    (processSpec testCardId spec).length ≤ 1 := by
  constructor
  · cases spec with
    | mk title tests => cases tests <;> rfl
  · unfold processSpec
    cases hh : spec.tests.head? with
    | none => simp
    | some t =>
      cases hl : t.results.getLast? with
      | none => simp [hl]
      | some latest => simp [hl]

/-- C4, counterexample.  The claim says the error message is carried
only on failure; but when the last attempt passed and still has an
error field, the emitted record has `passed = true` together with a
non-empty error message, because the code copies `error?.message`
unconditionally. -/
theorem claim4_error_on_pass_counterexample :
    processSpec "t".toList
      { title := "s".toList
        tests := [{ title := "x".toList
                    results := [{ status := "passed".toList, duration := 5,
                                  error := some "boom".toList }] }] } =
    [{ test_card_id := "t".toList, passed := true, duration_ms := 5,
       error_message := some "boom".toList, status := "passed".toList }] := by
  decide

/-- C4, amended.  For a spec whose first test entry has a non-empty
attempt list, exactly one record is emitted and it is derived solely
from the last attempt: `passed` iff its status is `passed`, the
duration from it, and the error message copied from it whenever
present (regardless of pass or fail); a first test entry with an empty
attempt list yields no record. -/
theorem claim4_last_attempt_amended (testCardId : Str) (spec : PWSpec)
    (t : PWTest) (h : spec.tests.head? = some t) :
    (∀ latest, t.results.getLast? = some latest →
      processSpec testCardId spec =
        [{ test_card_id := testCardId
           passed := latest.status == "passed".toList
           duration_ms := latest.duration
           error_message := latest.error
           status := if latest.status == "passed".toList then "passed".toList
             else "failed".toList }]) ∧
    (t.results.getLast? = none → processSpec testCardId spec = []) := by
  constructor
  · intro latest hl
    unfold processSpec
    simp [h, hl]
  · intro hl
    unfold processSpec
    simp [h, hl]

/-- C4, witness for the amended theorem: a spec with two attempts
where the first fails and the second passes yields exactly one record,
with `passed = true`, taken from the second attempt. -/
theorem claim4_last_attempt_amended_witness :
    ({ title := "s".toList
       tests := [{ title := "x".toList
                   results := [{ status := "failed".toList, duration := 3,
                                 error := some "e1".toList },
                               { status := "passed".toList, duration := 5,
                                 error := none }] }] } : PWSpec).tests.head? =
      some { title := "x".toList
             results := [{ status := "failed".toList, duration := 3,
                           error := some "e1".toList },
                         { status := "passed".toList, duration := 5,
                           error := none }] } ∧
    processSpec "id".toList
      { title := "s".toList
        tests := [{ title := "x".toList
                    results := [{ status := "failed".toList, duration := 3,
                                  error := some "e1".toList },
                                { status := "passed".toList, duration := 5,
                                  error := none }] }] } =
      [{ test_card_id := "id".toList, passed := true, duration_ms := 5,
         error_message := none, status := "passed".toList }] :=
  ⟨rfl,
    (claim4_last_attempt_amended "id".toList
      { title := "s".toList
        tests := [{ title := "x".toList
                    results := [{ status := "failed".toList, duration := 3,
                                  error := some "e1".toList },
                                { status := "passed".toList, duration := 5,
                                  error := none }] }] }
      { title := "x".toList
        results := [{ status := "failed".toList, duration := 3,
                      error := some "e1".toList },
                    { status := "passed".toList, duration := 5,
                      error := none }] } rfl).1
      { status := "passed".toList, duration := 5, error := none } rfl⟩

/-- C5, counterexample.  The claim says a failure to write a single
definition is logged and skipped and the rest of the batch is still
written.  There is no per-file catch in `writeTestFiles`: when the
write of the first definition fails, the whole batch aborts with the
exception and the second definition is never processed. -/
theorem claim5_write_abort_counterexample :
    writeTestFiles "/tmp/eirtests-1".toList
      (fun p => p != pathJoin "/tmp/eirtests-1".toList "a.spec.ts".toList)
      [{ id := "i1".toList, title := "t1".toList,
         playwright_code := some "x".toList, file_path := "a.spec.ts".toList },
       { id := "i2".toList, title := "t2".toList,
         playwright_code := some "y".toList, file_path := "b.spec.ts".toList }] =
      .error (pathJoin "/tmp/eirtests-1".toList "a.spec.ts".toList) := by
  rfl

/-- C5, amended.  Only definitions lacking source code are logged and
skipped while the batch continues: when every actual file write
succeeds, materialization writes every definition that has code and
returns their count.  A failing write is not caught per file — it
aborts the whole batch. -/
theorem claim5_materialize_count_amended (tempDir : Str)
    (tests : List ExportedTest) :
    ∃ w, writeTestFiles tempDir (fun _ => true) tests = .ok w ∧
      w.written = countWithCode tests := by
  obtain ⟨w, hw, hc⟩ := writeTestFilesGo_allOk tempDir tests
    { written := 0, map := [], files := [] }
  exact ⟨w, hw, by simpa using hc⟩

/-- C6, counterexample.  The claim says two definitions materializing
to the same relative path raise a fatal configuration error.  They do
not: the batch succeeds, the later definition silently overwrites the
earlier file, and the single path-identity-map entry carries the later
definition's id `i2`. -/
theorem claim6_duplicate_path_counterexample :
    writeTestFiles "/tmp/eirtests-1".toList (fun _ => true)
      [{ id := "i1".toList, title := "t1".toList,
         playwright_code := some "x".toList, file_path := "a.spec.ts".toList },
       { id := "i2".toList, title := "t2".toList,
         playwright_code := some "y".toList, file_path := "a.spec.ts".toList }] =
      .ok { written := 2,
            map := [(pathJoin "/tmp/eirtests-1".toList "a.spec.ts".toList,
              "i2".toList)],
            files := [(pathJoin "/tmp/eirtests-1".toList "a.spec.ts".toList,
              "y".toList)] } := by
  rfl

/-- C6, amended.  Duplicate target paths raise no error: the later
definition silently replaces the earlier file and its map entry.  What
survives of the claim is its consequence: the path-identity map always
has exactly one entry per materialized path (keys are duplicate-free),
because `Map.set` replaces in place. -/
theorem claim6_map_unique_amended (tempDir : Str) (writeOk : Str → Bool)
    (tests : List ExportedTest) (w : WriteOutcome)
    (h : writeTestFiles tempDir writeOk tests = .ok w) :
    (w.map.map Prod.fst).Nodup :=
  writeTestFilesGo_map_nodup tempDir writeOk tests _ w (by simp) h

/-- C6, witness for the amended theorem, at the duplicate-path input:
the resulting map keys are duplicate-free. -/
theorem claim6_map_unique_amended_witness :
    writeTestFiles "/tmp/w".toList (fun _ => true)
      [{ id := "i1".toList, title := "t1".toList,
         playwright_code := some "x".toList, file_path := "p.spec.ts".toList },
       { id := "i2".toList, title := "t2".toList,
         playwright_code := some "y".toList, file_path := "p.spec.ts".toList }] =
      .ok { written := 2,
            map := [(pathJoin "/tmp/w".toList "p.spec.ts".toList, "i2".toList)],
            files := [(pathJoin "/tmp/w".toList "p.spec.ts".toList,
              "y".toList)] } ∧
    (([(pathJoin "/tmp/w".toList "p.spec.ts".toList, "i2".toList)] :
        List (Str × Str)).map Prod.fst).Nodup :=
  ⟨rfl,
    claim6_map_unique_amended "/tmp/w".toList (fun _ => true)
      [{ id := "i1".toList, title := "t1".toList,
         playwright_code := some "x".toList, file_path := "p.spec.ts".toList },
       { id := "i2".toList, title := "t2".toList,
         playwright_code := some "y".toList, file_path := "p.spec.ts".toList }]
      { written := 2,
        map := [(pathJoin "/tmp/w".toList "p.spec.ts".toList, "i2".toList)],
        files := [(pathJoin "/tmp/w".toList "p.spec.ts".toList, "y".toList)] }
      rfl⟩

/-- C8, counterexample.  The claim says a fence with any language tag
is stripped.  For a fence tagged `js` the two anchored prefix patterns
(`typescript` tag or bare fence) both fail, so only the trailing fence
is removed and the written bytes are not the unwrapped source. -/
theorem claim8_fence_tag_counterexample :
    cleanCode "```js\nfoo\n```".toList = "```js\nfoo".toList ∧
    cleanCode "```js\nfoo\n```".toList ≠ "foo".toList := by decide

/-- C8, amended.  Only the two recognized fence forms round-trip: a
leading fence tagged exactly `typescript` or a bare leading fence,
each with a trailing fence, is stripped to the byte-identical inner
text — provided the inner text followed by the closing fence does not
itself begin with a bare fence line (which would be stripped twice);
source text not starting with a fence is written unchanged. -/
theorem claim8_fence_strip_amended (body : Str)
    (h : "```\n".toList.isPrefixOf (body ++ "\n```".toList) = false) :
    cleanCode ("```typescript\n".toList ++ (body ++ "\n```".toList)) = body ∧
    cleanCode ("```\n".toList ++ (body ++ "\n```".toList)) = body ∧
    ∀ s : Str, "```".toList.isPrefixOf s = false → cleanCode s = s := by
  refine ⟨?_, ?_, ?_⟩
  · have houter := isPrefixOf_append_left "```".toList "```typescript\n".toList
      (body ++ "\n```".toList) (by decide)
    unfold cleanCode
    rw [houter, if_pos rfl, stripPrefixIf_append, stripPrefixIf_of_neg _ _ h,
      stripSuffixIf_append]
  · have houter := isPrefixOf_append_left "```".toList "```\n".toList
      (body ++ "\n```".toList) (by decide)
    unfold cleanCode
    rw [houter, if_pos rfl,
      stripPrefixIf_of_neg _ _
        (tsFence_not_prefixOf_bare (body ++ "\n```".toList)),
      stripPrefixIf_append, stripSuffixIf_append]
  · intro s hs
    unfold cleanCode
    rw [hs]
    simp

/-- C8, witness for the amended theorem with inner text `foo`. -/
theorem claim8_fence_strip_amended_witness :
    "```\n".toList.isPrefixOf ("foo".toList ++ "\n```".toList) = false ∧
    cleanCode ("```typescript\n".toList ++ ("foo".toList ++ "\n```".toList)) =
      "foo".toList ∧
    cleanCode ("```\n".toList ++ ("foo".toList ++ "\n```".toList)) =
      "foo".toList :=
  ⟨by decide, (claim8_fence_strip_amended "foo".toList (by decide)).1,
    (claim8_fence_strip_amended "foo".toList (by decide)).2.1⟩

/-- C3, counterexample.  The claim allows an arbitrary path prefix
before the run's discriminator.  When the prefix itself contains an
`eirtests-<digits>/` occurrence, the matcher fires on that earlier
occurrence, the reconstructed path gains a spurious middle segment,
the lookup misses, and the suite is dropped instead of mapping to the
recorded id. -/
theorem claim3_prefix_counterexample :
    "eirtests-1/eirtests-99/a.spec.ts".toList =
      "eirtests-1/".toList ++ ("eirtests-".toList ++
        ("99".toList ++ '/' :: "a.spec.ts".toList)) ∧
    mapGet [(pathJoin "/tmp/eirtests-99".toList "a.spec.ts".toList,
        "id1".toList)]
      (pathJoin "/tmp/eirtests-99".toList "a.spec.ts".toList) =
        some "id1".toList ∧
    correlateSuite "/tmp/eirtests-99".toList
      [(pathJoin "/tmp/eirtests-99".toList "a.spec.ts".toList, "id1".toList)]
      "eirtests-1/eirtests-99/a.spec.ts".toList = none := by decide

/-- C3, amended.  The round trip holds when the matcher's leftmost hit
is the run's own discriminator: if the reported suite path is an
arbitrary prefix followed by `eirtests-<digits>/` (the digits of the
run's temp directory) and the materialized relative path, the relative
path contains no line terminator (JavaScript `.` cannot match those,
so the regex would reject the string), and no earlier position of the
reported string matches `eirtests-<digits>/`, then correlation returns
exactly the id that materialization recorded for that relative path. -/
theorem claim3_roundtrip_amended (pre ds p id : Str)
    (map : List (Str × Str)) (hds : ds ≠ [])
    (hdig : ∀ c ∈ ds, isDigitChar c = true) (hp : p ≠ [])
    (hterm : p.any isLineTerminator = false)
    (hpre : ∀ i < pre.length,
      matchAt ((pre ++ ("eirtests-".toList ++ (ds ++ '/' :: p))).drop i) =
        none)
    (hmap : mapGet map
      (pathJoin ("/tmp/".toList ++ ("eirtests-".toList ++ ds)) p) = some id) :
    correlateSuite ("/tmp/".toList ++ ("eirtests-".toList ++ ds)) map
      (pre ++ ("eirtests-".toList ++ (ds ++ '/' :: p))) = some id := by
  have hAt := matchAt_discriminator ds p hds hdig hp hterm
  have hFind : findMatch (pre ++ ("eirtests-".toList ++ (ds ++ '/' :: p))) =
      some p := by
    rw [findMatch_append_of_no_early pre
      ("eirtests-".toList ++ (ds ++ '/' :: p)) hpre]
    exact findMatch_of_matchAt _ _ hAt
  unfold correlateSuite
  rw [hFind]
  exact hmap

/-- C3, witness for the amended theorem: prefix `x/`, discriminator
digits `99`, relative path `a.spec.ts`, recorded id `id9`. -/
theorem claim3_roundtrip_amended_witness :
    ("99".toList ≠ ([] : Str)) ∧
    (∀ c ∈ "99".toList, isDigitChar c = true) ∧
    ("a.spec.ts".toList ≠ ([] : Str)) ∧
    ("a.spec.ts".toList.any isLineTerminator = false) ∧
    (∀ i < "x/".toList.length,
      matchAt (("x/".toList ++ ("eirtests-".toList ++
        ("99".toList ++ '/' :: "a.spec.ts".toList))).drop i) = none) ∧
    correlateSuite ("/tmp/".toList ++ ("eirtests-".toList ++ "99".toList))
      [(pathJoin ("/tmp/".toList ++ ("eirtests-".toList ++ "99".toList))
          "a.spec.ts".toList, "id9".toList)]
      ("x/".toList ++ ("eirtests-".toList ++
        ("99".toList ++ '/' :: "a.spec.ts".toList))) = some "id9".toList :=
  ⟨by decide, by decide, by decide, by decide, by decide,
    claim3_roundtrip_amended "x/".toList "99".toList "a.spec.ts".toList
      "id9".toList
      [(pathJoin ("/tmp/".toList ++ ("eirtests-".toList ++ "99".toList))
          "a.spec.ts".toList, "id9".toList)]
      (by decide) (by decide) (by decide) (by decide) (by decide)
      (by decide)⟩

/-- C2, confirmed.  On every exit path of `run` — normal completion,
the zero-tests-written path, and any exception raised during validate,
fetch, mkdir, or materialize (execution and reporting cannot throw out
of their own handlers) — `cleanup` runs exactly once before `run`
returns, so afterwards the workspace directory no longer exists; and
cleaning an already-removed workspace is a no-op on the directory, not
an error. -/
theorem claim2_cleanup_every_path (cfg : Config) (tempDir nodePath : Str)
    (procEnv : List (Str × Str)) (o : Oracle) (fs0 : RunFS) :
    ((run cfg tempDir nodePath procEnv o fs0).2.dirExists = false ∧
     (run cfg tempDir nodePath procEnv o fs0).2.cleanupCalls =
       fs0.cleanupCalls + 1) ∧
    ∀ s : RunFS, (cleanup (cleanup s)).dirExists = (cleanup s).dirExists := by
  refine ⟨?_, fun s => by rw [cleanup_dirExists, cleanup_dirExists]⟩
  unfold run
  split
  · exact ⟨cleanup_dirExists fs0, rfl⟩
  split
  · exact ⟨cleanup_dirExists fs0, rfl⟩
  split
  · exact ⟨cleanup_dirExists fs0, rfl⟩
  rename_i fs1 hm
  have hcc := createTempDirectory_calls fs0 fs1 o.mkdirOk hm
  split
  · exact ⟨cleanup_dirExists fs1, by
      show (cleanup fs1).cleanupCalls = fs0.cleanupCalls + 1
      rw [cleanup_cleanupCalls, hcc]⟩
  split
  · exact ⟨cleanup_dirExists fs1, by
      show (cleanup fs1).cleanupCalls = fs0.cleanupCalls + 1
      rw [cleanup_cleanupCalls, hcc]⟩
  · exact ⟨cleanup_dirExists fs1, by
      show (cleanup fs1).cleanupCalls = fs0.cleanupCalls + 1
      rw [cleanup_cleanupCalls, hcc]⟩

/-- C7, confirmed.  Once the pipeline reaches the execution stage
(validation, fetch, mkdir and materialization succeeded and at least
one file was written), the value `run` returns is exactly the engine
exit code computed by `executeTests` — the report-stage oracle fields
(results-file presence, JSON parse, POST outcome) do not appear in the
conclusion, so no correlation or submission failure can change it:
`reportResults` swallows every failure inside its own handler. -/
theorem claim7_exit_from_engine (cfg : Config) (tempDir nodePath : Str)
    (procEnv : List (Str × Str)) (o : Oracle) (fs0 : RunFS)
    (ex : ExportedTests) (fs1 : RunFS) (w : WriteOutcome)
    (hv : validateConfig cfg = .ok ())
    (hf : o.fetchResult = .ok ex)
    (hm : createTempDirectory fs0 o.mkdirOk = .ok fs1)
    (hw : writeTestFiles tempDir o.writeOk ex.tests = .ok w)
    (hz : w.written ≠ 0) :
    (run cfg tempDir nodePath procEnv o fs0).1 =
      executeTests nodePath procEnv (getSecretsForPlaywright procEnv)
        o.engineOutcome := by
  have hzb : (w.written == 0) = false := by simpa using hz
  unfold run
  simp only [hv, hf, hm, hw, hzb, Bool.false_eq_true, if_false]

/-- Concrete configuration for the C7 witness run. -/
def cfg7 : Config := { apiKey := "k".toList, siteId := "s".toList }

/-- Concrete fetch payload for the C7 witness run: one test with code. -/
def ex7 : ExportedTests :=
  { site_id := "s".toList
    organization_id := "org".toList
    tests := [{ id := "i1".toList, title := "t".toList,
                playwright_code := some "c".toList,
                file_path := "a.spec.ts".toList }] }

/-- Concrete oracle for the C7 witness run: the engine throws with
status 7 and the result submission fails with a network error. -/
def oracle7 : Oracle :=
  { fetchResult := .ok ex7
    mkdirOk := true
    writeOk := fun _ => true
    engineOutcome := .error (some 7)
    reportJsonExists := true
    reportParse := .ok { suites := [] }
    reportPost := .error "network error".toList
    startedAt := "t0".toList
    finishedAt := "t1".toList }

/-- Materialization outcome of the C7 witness run. -/
def w7 : WriteOutcome :=
  { written := 1
    map := [(pathJoin "/tmp/eirtests-42".toList "a.spec.ts".toList,
      "i1".toList)]
    files := [(pathJoin "/tmp/eirtests-42".toList "a.spec.ts".toList,
      "c".toList)] }

/-- C7, witness: the submission POST fails with a network error, yet
the run still returns the engine's exit code 7. -/
theorem claim7_exit_from_engine_witness :
    oracle7.reportPost = .error "network error".toList ∧
    (run cfg7 "/tmp/eirtests-42".toList "NP".toList [] oracle7
      { dirExists := false, cleanupCalls := 0 }).1 = 7 :=
  ⟨rfl,
    claim7_exit_from_engine cfg7 "/tmp/eirtests-42".toList "NP".toList []
      oracle7 { dirExists := false, cleanupCalls := 0 } ex7
      { dirExists := true, cleanupCalls := 0 } w7 rfl rfl rfl rfl
      (by decide)⟩
